import Mathlib

/-!
Verification of the response-validation and quiz-state layer of the
interview-practice application (components `InterviewAssistant` and
`CodeEditor`).

The application delegates all "intelligence" to an external text oracle and
locally performs only parsing, validation with defaults, and simple state
transitions.  Those local computations are modelled here as pure Lean
functions over `String` / `List Char`, with the oracle's raw reply passed in
as an explicit argument (`Option String`, or an already-JSON-parsed record
when the call requests structured output; `none` stands for a failed round
trip or an unparseable reply).

JavaScript string primitives used by the code (`trim`, `toLowerCase`,
`split`, `includes`, anchored-regex replacement) are given explicit
executable models on `List Char`.
-/

/-- Model of JavaScript `String.prototype.trim` on character lists:
whitespace is removed from both ends. -/
def trimChars (l : List Char) : List Char :=
  ((l.dropWhile Char.isWhitespace).reverse.dropWhile Char.isWhitespace).reverse

/-- Model of JavaScript `String.prototype.toLowerCase` (ASCII case folding). -/
def jsToLowerCase (s : String) : String :=
  ⟨s.data.map Char.toLower⟩

/-- Model of JavaScript `String.prototype.split` with a one-character
separator: `"".split(sep)` is `[""]`, a trailing separator yields a trailing
empty segment. -/
def splitOnChar (sep : Char) : List Char → List (List Char)
  | [] => [[]]
  | c :: t =>
    if c = sep then
      [] :: splitOnChar sep t
    else
      match splitOnChar sep t with
      | [] => [[c]]
      | h :: r => (c :: h) :: r

/-- Model of JavaScript `hay.includes(needle)`: substring containment. -/
def jsIncludes (needle : List Char) : List Char → Bool
  | [] => needle.isEmpty
  | c :: t => needle.isPrefixOf (c :: t) || jsIncludes needle t

/-- Function `extractSkills` (InterviewAssistant.tsx, lines 98–112): the oracle reply
is split on commas and each segment trimmed; a missing reply
(`content` nullish) falls back to the empty list through `|| []`. -/
def extractSkills (content : Option String) : List String :=
  match content with
  | none => []
  | some s => (splitOnChar ',' s.data).map fun seg => (⟨trimChars seg⟩ : String)

theorem splitOnChar_ne_nil (sep : Char) (l : List Char) :
    splitOnChar sep l ≠ [] := by
  cases l with
  | nil => simp [splitOnChar]
  | cons c t =>
    simp only [splitOnChar]
    split
    · simp
    · split <;> simp

/-- Re-joining a list of segments with a separator character, the inverse
of `splitOnChar`. -/
def joinWithChar (sep : Char) : List (List Char) → List Char
  | [] => []
  | [x] => x
  | x :: y :: r => x ++ sep :: joinWithChar sep (y :: r)

theorem joinWithChar_splitOnChar (sep : Char) (l : List Char) :
    joinWithChar sep (splitOnChar sep l) = l := by
  induction l with
  | nil => rfl
  | cons c t ih =>
    simp only [splitOnChar]
    split
    · rename_i hc
      rcases h : splitOnChar sep t with _ | ⟨s₀, rest⟩
      · exact absurd h (splitOnChar_ne_nil sep t)
      · rw [h] at ih
        simp only [joinWithChar, List.nil_append]
        rw [ih, hc]
    · rcases h : splitOnChar sep t with _ | ⟨s₀, rest⟩
      · exact absurd h (splitOnChar_ne_nil sep t)
      · rw [h] at ih
        show joinWithChar sep ((c :: s₀) :: rest) = c :: t
        cases rest with
        | nil => simpa [joinWithChar] using congrArg (c :: ·) ih
        | cons r₁ r' =>
          simp only [joinWithChar, List.cons_append] at ih ⊢
          rw [ih]

theorem mem_splitOnChar_not_sep (sep : Char) (l : List Char) :
    ∀ seg ∈ splitOnChar sep l, sep ∉ seg := by
  induction l with
  | nil => simp [splitOnChar]
  | cons c t ih =>
    simp only [splitOnChar]
    split
    · intro seg hseg
      rcases List.mem_cons.mp hseg with rfl | hseg
      · simp
      · exact ih seg hseg
    · rename_i hc
      rcases h : splitOnChar sep t with _ | ⟨s₀, rest⟩
      · exact absurd h (splitOnChar_ne_nil sep t)
      · rw [h] at ih
        intro seg hseg
        rcases List.mem_cons.mp hseg with rfl | hseg
        · intro hmem
          rcases List.mem_cons.mp hmem with heq | hmem
          · exact hc heq.symm
          · exact ih s₀ (List.mem_cons_self s₀ rest) hmem
        · exact ih seg (List.mem_cons_of_mem s₀ hseg)

theorem jsIncludes_iff (needle hay : List Char) :
    jsIncludes needle hay = true ↔ needle <:+: hay := by
  induction hay with
  | nil => simp [jsIncludes, List.isEmpty_iff]
  | cons c t ih =>
    simp [jsIncludes, List.infix_cons_iff, ih, List.isPrefixOf_iff_prefix]

/-- Resume verification (InterviewAssistant.tsx, line 80): the upload is
accepted exactly when the lower-cased oracle reply contains the substring
`"yes"`; a missing reply falls back to `false` through `?? false`. -/
def isResumeReply (content : Option String) : Bool :=
  match content with
  | some c => jsIncludes "yes".data (jsToLowerCase c).data
  | none => false

/-- Leading-marker stripping for generated question lines
(InterviewAssistant.tsx, line 129): the anchored replacement of
`digits, then a dot, then whitespace` with the empty string; a line that
does not start with `digits '.'` is returned unchanged. -/
def stripNumMarker (l : List Char) : List Char :=
  let ds := l.takeWhile Char.isDigit
  if ds.isEmpty then l
  else
    match l.dropWhile Char.isDigit with
    | '.' :: t => t.dropWhile Char.isWhitespace
    | _ => l

/-- Function `generateQuestions` (InterviewAssistant.tsx, lines 114–133): the oracle
reply is split on line breaks, whitespace-only lines are dropped, each kept
line has its leading numeric marker stripped and is trimmed, and only the
first 10 entries are retained; a missing reply yields the empty list. -/
def generateQuestions (content : Option String) : List String :=
  match content with
  | none => []
  | some s =>
    (((splitOnChar '\n' s.data).filter fun q => !(trimChars q).isEmpty).map
      fun q => (⟨trimChars (stripNumMarker q)⟩ : String)).take 10

/-- Case-insensitive literal match at the head of the input: returns the
input after the pattern, or `none` if the pattern is not there. -/
def ciStrip : List Char → List Char → Option (List Char)
  | [], l => some l
  | _ :: _, [] => none
  | p :: ps, c :: cs => if c.toLower = p.toLower then ciStrip ps cs else none

/-- Case-sensitive literal match at the head of the input. -/
def litStrip : List Char → List Char → Option (List Char)
  | [], l => some l
  | _ :: _, [] => none
  | p :: ps, c :: cs => if c = p then litStrip ps cs else none

/-- One attempt of the score regex at the head of the input: `"Score: "`
case-insensitively, then a non-empty digit run (the capture group), then the
literal `"/10"`.  Returns the captured digits and the input after the
match. -/
def scoreHere (l : List Char) : Option (List Char × List Char) :=
  match ciStrip "Score: ".data l with
  | none => none
  | some r =>
    let ds := r.takeWhile Char.isDigit
    if ds.isEmpty then none
    else
      match litStrip "/10".data (r.dropWhile Char.isDigit) with
      | none => none
      | some r3 => some (ds, r3)

/-- Decimal value of a digit run, as computed by `parseInt` on the capture
group. -/
def digitsVal (ds : List Char) : Nat :=
  ds.foldl (fun a c => a * 10 + (c.toNat - 48)) 0

/-- Model of `feedbackText.match` with the score pattern
(InterviewAssistant.tsx, line 175): the pattern is tried at every position
left to right; the first hit yields the captured integer. -/
def scoreMatch : List Char → Option Nat
  | [] => none
  | c :: t =>
    match scoreHere (c :: t) with
    | some p => some (digitsVal p.1)
    | none => scoreMatch t

/-- One attempt of the replacement regex at the head of the input: the score
pattern, then an optional dot, then any run of whitespace; returns the input
after the whole match. -/
def scoreRemoveHere (l : List Char) : Option (List Char) :=
  match scoreHere l with
  | none => none
  | some (_, r) =>
    match r with
    | '.' :: t => some (t.dropWhile Char.isWhitespace)
    | _ => some (r.dropWhile Char.isWhitespace)

/-- Model of `feedbackText.replace` with the score pattern
(InterviewAssistant.tsx, line 177): the first occurrence of the pattern is
deleted, everything else is kept. -/
def removeScore : List Char → List Char
  | [] => []
  | c :: t =>
    match scoreRemoveHere (c :: t) with
    | some r => r
    | none => c :: removeScore t

/-- Extracted score (InterviewAssistant.tsx, line 176): the captured integer
when the pattern matches, else the default 5. -/
def parseScore (feedbackText : String) : Nat :=
  (scoreMatch feedbackText.data).getD 5

/-- Recorded feedback (InterviewAssistant.tsx, line 177): the raw text with
the score pattern removed, then trimmed. -/
def parseFeedback (feedbackText : String) : String :=
  ⟨trimChars (removeScore feedbackText.data)⟩

theorem scoreMatch_none_removeScore :
    ∀ l : List Char, scoreMatch l = none → removeScore l = l := by
  intro l
  induction l with
  | nil => intro _; rfl
  | cons c t ih =>
    intro h
    cases hs : scoreHere (c :: t) with
    | some p => simp [scoreMatch, hs] at h
    | none =>
      have ht : scoreMatch t = none := by simpa [scoreMatch, hs] using h
      have hr : scoreRemoveHere (c :: t) = none := by simp [scoreRemoveHere, hs]
      simp [removeScore, hr, ih ht]

/-- C2: when the raw scoring text matches the score pattern the recorded
score is the captured integer and the recorded feedback is the raw text with
the score pattern removed and trimmed; when the pattern is absent the score
is 5 and the feedback is the full trimmed raw text. -/
theorem score_feedback_extraction (raw : String) :
    (∀ n, scoreMatch raw.data = some n →
        parseScore raw = n ∧ (parseFeedback raw).data = trimChars (removeScore raw.data)) ∧
    (scoreMatch raw.data = none →
        parseScore raw = 5 ∧ (parseFeedback raw).data = trimChars raw.data) := by
  constructor
  · intro n hn
    exact ⟨by simp [parseScore, hn], rfl⟩
  · intro h
    refine ⟨by simp [parseScore, h], ?_⟩
    simp [parseFeedback, scoreMatch_none_removeScore raw.data h]

theorem score_feedback_extraction_witness :
    parseScore "Score: 7/10. Feedback: Good job." = 7 ∧
    parseFeedback "Score: 7/10. Feedback: Good job." = "Feedback: Good job." := by
  have h := (score_feedback_extraction "Score: 7/10. Feedback: Good job.").1 7 (by decide)
  exact ⟨h.1, by decide⟩

/-- C3, counterexample: on the empty raw text the extracted skill list is
`[""]` — one empty-string entry — and not the empty list the claim
demands. -/
theorem extractSkills_empty_cex :
    extractSkills (some "") = [""] ∧ extractSkills (some "") ≠ ([] : List String) := by
  constructor
  · decide
  · decide

/-- C3, amended: the skill list is the image, under trimming, of the
comma-free segments whose comma-interleaving rebuilds the raw text; it is
never empty when a reply is present (in particular the empty raw text yields
`[""]`), and only an absent reply yields the empty list. -/
theorem extractSkills_decomposition (s : String) :
    ∃ segs : List (List Char),
      joinWithChar ',' segs = s.data ∧
      (∀ seg ∈ segs, ',' ∉ seg) ∧
      extractSkills (some s) = segs.map (fun seg => (⟨trimChars seg⟩ : String)) ∧
      extractSkills (some s) ≠ [] ∧
      extractSkills none = [] := by
  refine ⟨splitOnChar ',' s.data, joinWithChar_splitOnChar ',' s.data,
    mem_splitOnChar_not_sep ',' s.data, rfl, ?_, rfl⟩
  intro h
  exact splitOnChar_ne_nil ',' s.data
    (by simpa [extractSkills, List.map_eq_nil_iff] using h)

theorem extractSkills_decomposition_witness :
    extractSkills (some "a, b, c") = ["a", "b", "c"] ∧
    extractSkills (some "a, b, c") ≠ [] := by
  obtain ⟨segs, -, -, -, h4, -⟩ := extractSkills_decomposition "a, b, c"
  exact ⟨by decide, h4⟩

/-- C4: the resume validity flag is `true` exactly when the lower-cased
oracle reply contains the substring `"yes"`, and is `false` when the round
trip produced no reply. -/
theorem resume_validity (c : String) :
    (isResumeReply (some c) = true ↔ "yes".data <:+: (jsToLowerCase c).data) ∧
    isResumeReply none = false :=
  ⟨jsIncludes_iff "yes".data (jsToLowerCase c).data, rfl⟩

theorem resume_validity_witness :
    isResumeReply (some "Yes, this is a resume.") = true ∧
    isResumeReply none = false := by
  refine ⟨?_, (resume_validity "x").2⟩
  exact (resume_validity "Yes, this is a resume.").1.mpr (by decide)

/-- C5: when the raw question text has at least 10 non-blank lines, exactly
the first 10 of them are kept, in order, each with its numeric marker
stripped and trimmed. -/
theorem generateQuestions_first_ten (s : String)
    (h : 10 ≤ ((splitOnChar '\n' s.data).filter fun q => !(trimChars q).isEmpty).length) :
    generateQuestions (some s) =
      ((((splitOnChar '\n' s.data).filter fun q => !(trimChars q).isEmpty).take 10).map
        fun q => (⟨trimChars (stripNumMarker q)⟩ : String)) ∧
    (generateQuestions (some s)).length = 10 := by
  constructor
  · simp [generateQuestions, List.map_take]
  · simp only [generateQuestions, List.length_take, List.length_map]
    omega

theorem generateQuestions_first_ten_witness :
    generateQuestions
        (some "1. a\n2. b\n3. c\n4. d\n5. e\n6. f\n7. g\n8. h\n9. i\n10. j\n11. k\n12. l") =
      ["a", "b", "c", "d", "e", "f", "g", "h", "i", "j"] ∧
    (generateQuestions
        (some "1. a\n2. b\n3. c\n4. d\n5. e\n6. f\n7. g\n8. h\n9. i\n10. j\n11. k\n12. l")).length = 10 := by
  have h := generateQuestions_first_ten
    "1. a\n2. b\n3. c\n4. d\n5. e\n6. f\n7. g\n8. h\n9. i\n10. j\n11. k\n12. l" (by decide)
  exact ⟨by decide, h.2⟩

/-- The validated analysis shape (`ResultAnalysis` interface,
InterviewAssistant.tsx, lines 18–23).  The three-string tuples are modelled
as lists; the validator below always produces lists of length 3. -/
structure ResultAnalysis where
  overallPerformance : String
  strengths : List String
  weaknesses : List String
  improvementSuggestions : List String
deriving DecidableEq

/-- The `overallPerformance` field of the parsed analysis reply.  Three
cases behave differently in the source: an absent or null field makes the
optional chaining `overallPerformance?.toLowerCase()` yield `undefined`
(which `includes` rejects, so the default is used); a string is lower-cased
and checked; any other present value (a JSON number, boolean, array or
object) makes `.toLowerCase` throw a TypeError inside the `try`. -/
inductive PerfValue where
  | absent
  | str (s : String)
  | other
deriving DecidableEq

/-- The JSON object obtained from the analysis reply.  For the three list
fields, `none` covers both an absent field and a present non-array value:
`Array.isArray` rejects either without throwing, so both take the per-field
default.  For `overallPerformance` the non-string case must be kept apart
(`PerfValue.other`), because there the source throws instead of
defaulting. -/
structure ParsedAnalysis where
  overallPerformance : PerfValue := .absent
  strengths : Option (List String) := none
  weaknesses : Option (List String) := none
  improvementSuggestions : Option (List String) := none
deriving DecidableEq

/-- Value `defaultAnalysis` (InterviewAssistant.tsx, lines 243–248): the per-field
defaults used when the parsed reply fails validation. -/
def defaultAnalysis : ResultAnalysis where
  overallPerformance := "average"
  strengths := ["No strengths identified", "N/A", "N/A"]
  weaknesses := ["No weaknesses identified", "N/A", "N/A"]
  improvementSuggestions := ["Review your answers", "Practice more", "Study relevant materials"]

/-- The hard-coded analysis installed by the `catch` branch of
`analyzeResults` (InterviewAssistant.tsx, lines 268–276). -/
def failureAnalysis : ResultAnalysis where
  overallPerformance := "average"
  strengths := ["Could not analyze", "N/A", "N/A"]
  weaknesses := ["Could not analyze", "N/A", "N/A"]
  improvementSuggestions := ["Review your answers", "Practice more", "Study relevant materials"]

/-- The four accepted performance categories
(InterviewAssistant.tsx, line 253). -/
def validPerformances : List String :=
  ["excellent", "good", "average", "needs improvement"]

/-- Validation of one three-string list field (InterviewAssistant.tsx,
lines 256–264): a list with at least 3 entries keeps exactly its first
three; anything else is replaced by that field's default list. -/
def validateListField (inp : Option (List String)) (dflt : List String) : List String :=
  match inp with
  | some (a :: b :: c :: _) => [a, b, c]
  | some _ => dflt
  | none => dflt

/-- Result of `parsedAnalysis.overallPerformance?.toLowerCase()`
(InterviewAssistant.tsx, line 253): `undefined` for an absent field, the
lower-cased string for a string, a thrown TypeError (modelled as `.error`)
for any other present value. -/
def perfLower (v : PerfValue) : Except Unit (Option String) :=
  match v with
  | .absent => .ok none
  | .str s => .ok (some (jsToLowerCase s))
  | .other => .error ()

/-- The validated analysis built from the parsed reply
(InterviewAssistant.tsx, lines 251–265).  Building the object can throw —
only through the lower-casing of a present non-string
`overallPerformance` — hence the `Except`. -/
def validateAnalysis (p : ParsedAnalysis) : Except Unit ResultAnalysis :=
  match perfLower p.overallPerformance with
  | .error e => .error e
  | .ok lowered =>
    .ok { overallPerformance :=
            match lowered with
            | some ls =>
              if validPerformances.contains ls then ls
              else defaultAnalysis.overallPerformance
            | none => defaultAnalysis.overallPerformance
          strengths := validateListField p.strengths defaultAnalysis.strengths
          weaknesses := validateListField p.weaknesses defaultAnalysis.weaknesses
          improvementSuggestions :=
            validateListField p.improvementSuggestions defaultAnalysis.improvementSuggestions }

/-- Function `analyzeResults` reply handling (InterviewAssistant.tsx,
lines 216–276): a reply that parses as JSON goes through the validator; a
failed call, an unparseable reply, or a validation that throws all land in
the `catch`, which installs the whole hard-coded fallback. -/
def analyzeResults (outcome : Option ParsedAnalysis) : ResultAnalysis :=
  match outcome with
  | some p =>
    match validateAnalysis p with
    | .ok v => v
    | .error _ => failureAnalysis
  | none => failureAnalysis

/-- What the claim asserts of one validated list field: the first three
entries are kept when at least three are present, otherwise the full default
list of that field is substituted, independently of the other fields. -/
def listFieldSpec (inp : Option (List String)) (dflt out : List String) : Prop :=
  (∀ l, inp = some l → 3 ≤ l.length → out = l.take 3) ∧
  (∀ l, inp = some l → l.length < 3 → out = dflt) ∧
  (inp = none → out = dflt)

theorem validateListField_spec (inp : Option (List String)) (dflt : List String) :
    listFieldSpec inp dflt (validateListField inp dflt) := by
  refine ⟨?_, ?_, ?_⟩
  · rintro l rfl h3
    match l with
    | a :: b :: c :: rest => simp [validateListField]
    | [] => simp at h3
    | [a] => simp at h3
    | [a, b] => simp at h3
  · rintro l rfl h3
    match l with
    | a :: b :: c :: rest => simp at h3; omega
    | [] => simp [validateListField]
    | [a] => simp [validateListField]
    | [a, b] => simp [validateListField]
  · rintro rfl
    simp [validateListField]

theorem analyzeResults_throw (p : ParsedAnalysis)
    (hp : p.overallPerformance = PerfValue.other) :
    analyzeResults (some p) = failureAnalysis := by
  simp [analyzeResults, validateAnalysis, perfLower, hp]

theorem analyzeResults_fields (p : ParsedAnalysis)
    (hp : p.overallPerformance ≠ PerfValue.other) :
    (analyzeResults (some p)).strengths =
      validateListField p.strengths defaultAnalysis.strengths ∧
    (analyzeResults (some p)).weaknesses =
      validateListField p.weaknesses defaultAnalysis.weaknesses ∧
    (analyzeResults (some p)).improvementSuggestions =
      validateListField p.improvementSuggestions defaultAnalysis.improvementSuggestions := by
  cases hv : p.overallPerformance with
  | absent => simp [analyzeResults, validateAnalysis, perfLower, hv]
  | str s => simp [analyzeResults, validateAnalysis, perfLower, hv]
  | other => exact absurd hv hp

theorem analyzeResults_perf_absent (p : ParsedAnalysis)
    (hp : p.overallPerformance = PerfValue.absent) :
    (analyzeResults (some p)).overallPerformance = "average" := by
  simp [analyzeResults, validateAnalysis, perfLower, hp, defaultAnalysis]

theorem analyzeResults_perf_str (p : ParsedAnalysis) (s : String)
    (hp : p.overallPerformance = PerfValue.str s) :
    (analyzeResults (some p)).overallPerformance =
      if validPerformances.contains (jsToLowerCase s) then jsToLowerCase s
      else "average" := by
  simp [analyzeResults, validateAnalysis, perfLower, hp, defaultAnalysis]

/-- C1, counterexample: for a parsed reply whose `overallPerformance` is
present with a non-string value (the JSON number 7, say) while all three
list fields carry 3-entry lists, the lower-casing throws and the `catch`
installs the whole failure analysis: the recorded strengths are
`["Could not analyze", "N/A", "N/A"]` and not the first 3 entries of the
input field, so the fallback is not decided independently per field as the
claim asserts. -/
theorem resultAnalysis_perField_cex :
    analyzeResults (some { overallPerformance := PerfValue.other,
                           strengths := some ["a", "b", "c"],
                           weaknesses := some ["d", "e", "f"],
                           improvementSuggestions := some ["g", "h", "i"] }) =
      failureAnalysis ∧
    (analyzeResults (some { overallPerformance := PerfValue.other,
                            strengths := some ["a", "b", "c"],
                            weaknesses := some ["d", "e", "f"],
                            improvementSuggestions := some ["g", "h", "i"] })).strengths ≠
      ["a", "b", "c"] := by
  constructor
  · decide
  · decide

/-- C1, amended: the recorded analysis always carries one of the four
performance categories (a present string is accepted case-insensitively and
lower-cased, an absent field becomes "average"), and as long as
`overallPerformance` is not a present non-string value, each of the three
list fields independently keeps exactly the first 3 entries of a present
list with at least 3 entries and otherwise receives that field's full
3-entry default list; a present non-string `overallPerformance`, however,
makes validation throw and the `catch` replaces every field at once with
the hard-coded failure analysis. -/
theorem resultAnalysis_validation (p : ParsedAnalysis) :
    (analyzeResults (some p)).overallPerformance ∈ validPerformances ∧
    (∀ s, p.overallPerformance = PerfValue.str s → jsToLowerCase s ∈ validPerformances →
        (analyzeResults (some p)).overallPerformance = jsToLowerCase s) ∧
    (∀ s, p.overallPerformance = PerfValue.str s → jsToLowerCase s ∉ validPerformances →
        (analyzeResults (some p)).overallPerformance = "average") ∧
    (p.overallPerformance ≠ PerfValue.other →
        listFieldSpec p.strengths defaultAnalysis.strengths
          (analyzeResults (some p)).strengths ∧
        listFieldSpec p.weaknesses defaultAnalysis.weaknesses
          (analyzeResults (some p)).weaknesses ∧
        listFieldSpec p.improvementSuggestions defaultAnalysis.improvementSuggestions
          (analyzeResults (some p)).improvementSuggestions) ∧
    (p.overallPerformance = PerfValue.other → analyzeResults (some p) = failureAnalysis) ∧
    analyzeResults none = failureAnalysis ∧
    defaultAnalysis.strengths.length = 3 ∧
    defaultAnalysis.weaknesses.length = 3 ∧
    defaultAnalysis.improvementSuggestions.length = 3 ∧
    failureAnalysis.overallPerformance ∈ validPerformances := by
  refine ⟨?_, ?_, ?_, ?_, analyzeResults_throw p, rfl, rfl, rfl, rfl, by decide⟩
  · cases hv : p.overallPerformance with
    | absent =>
      rw [analyzeResults_perf_absent p hv]
      decide
    | other =>
      rw [analyzeResults_throw p hv]
      decide
    | str s =>
      rw [analyzeResults_perf_str p s hv]
      cases hc : validPerformances.contains (jsToLowerCase s) with
      | true =>
        have hc' : List.elem (jsToLowerCase s) validPerformances = true := hc
        simpa using List.elem_iff.mp hc'
      | false =>
        show ("average" : String) ∈ validPerformances
        decide
  · intro s hs hmem
    rw [analyzeResults_perf_str p s hs]
    have hc : validPerformances.contains (jsToLowerCase s) = true :=
      List.elem_iff.mpr hmem
    simp [hc]
    exact fun h => absurd hmem h
  · intro s hs hmem
    rw [analyzeResults_perf_str p s hs]
    have hc : validPerformances.contains (jsToLowerCase s) = false := by
      cases hcb : validPerformances.contains (jsToLowerCase s) with
      | true =>
        have hc' : List.elem (jsToLowerCase s) validPerformances = true := hcb
        exact absurd (List.elem_iff.mp hc') hmem
      | false => rfl
    simp [hc]
    exact fun h => absurd h hmem
  · intro hp
    obtain ⟨h1, h2, h3⟩ := analyzeResults_fields p hp
    rw [h1, h2, h3]
    exact ⟨validateListField_spec p.strengths defaultAnalysis.strengths,
      validateListField_spec p.weaknesses defaultAnalysis.weaknesses,
      validateListField_spec p.improvementSuggestions defaultAnalysis.improvementSuggestions⟩

theorem resultAnalysis_validation_witness :
    (analyzeResults (some { overallPerformance := PerfValue.str "EXCELLENT",
                            strengths := some ["a", "b", "c", "d"],
                            weaknesses := some ["x"],
                            improvementSuggestions := none })).strengths =
      ["a", "b", "c"] ∧
    (analyzeResults (some { overallPerformance := PerfValue.str "EXCELLENT",
                            strengths := some ["a", "b", "c", "d"],
                            weaknesses := some ["x"],
                            improvementSuggestions := none })).overallPerformance =
      "excellent" := by
  have h := resultAnalysis_validation
    { overallPerformance := PerfValue.str "EXCELLENT",
      strengths := some ["a", "b", "c", "d"],
      weaknesses := some ["x"], improvementSuggestions := none }
  constructor
  · have := (h.2.2.2.1 (by decide)).1.1 ["a", "b", "c", "d"] rfl (by decide)
    simpa using this
  · have := h.2.1 "EXCELLENT" rfl (by decide)
    simpa using this

/-- One history entry (`ChatHistoryEntry` interface,
InterviewAssistant.tsx, lines 11–16).  `parseInt` on the digit capture
yields a non-negative integer, so the score is a `Nat`. -/
structure ChatHistoryEntry where
  question : String
  answer : String
  feedback : String
  score : Nat
deriving DecidableEq

/-- The interview component's state (the `useState` hooks of
`InterviewAssistant`, lines 31–43, restricted to the quiz flow). -/
structure QuizState where
  resumeText : String
  skills : List String
  currentQuestionIndex : Nat
  currentQuestion : String
  answer : String
  history : List ChatHistoryEntry
  interviewing : Bool
  totalScore : Nat
  questions : List String
  interviewCompleted : Bool
  resultAnalysis : Option ResultAnalysis
deriving DecidableEq

/-- Function `handleAnswerSubmit` (InterviewAssistant.tsx, lines 157–197).
`feedbackContent` is the scoring oracle's reply (`none` when the reply
carried no content, in which case the code substitutes
"No feedback available."); `analysisOutcome` is the JSON-parsed analysis
reply used only on the completing submission. -/
def handleAnswerSubmit (s : QuizState) (feedbackContent : Option String)
    (analysisOutcome : Option ParsedAnalysis) : QuizState :=
  if (trimChars s.answer.data).isEmpty then s
  else
    let feedbackText := feedbackContent.getD "No feedback available."
    let entry : ChatHistoryEntry :=
      { question := s.currentQuestion, answer := s.answer,
        feedback := parseFeedback feedbackText, score := parseScore feedbackText }
    let s1 := { s with history := s.history ++ [entry],
                       totalScore := s.totalScore + parseScore feedbackText,
                       answer := "" }
    if s.currentQuestionIndex + 1 < s.questions.length then
      { s1 with currentQuestionIndex := s.currentQuestionIndex + 1,
                currentQuestion := s.questions.getD (s.currentQuestionIndex + 1) s.currentQuestion }
    else
      { s1 with resultAnalysis := some (analyzeResults analysisOutcome),
                interviewing := false,
                interviewCompleted := true }

/-- Function `startInterview` (InterviewAssistant.tsx, lines 135–148):
`questionsContent` is the question-generation oracle's reply. -/
def startInterview (s : QuizState) (questionsContent : Option String) : QuizState :=
  if s.skills.isEmpty then s
  else
    let generated := generateQuestions questionsContent
    let s1 := { s with history := [], totalScore := 0, interviewing := true,
                       currentQuestionIndex := 0, interviewCompleted := false,
                       questions := generated }
    if 0 < generated.length then { s1 with currentQuestion := generated.getD 0 s.currentQuestion }
    else s1

/-- A concrete mid-interview state used by closed statements below. -/
def sampleQuizState : QuizState where
  resumeText := "resume text"
  skills := ["Python", "SQL"]
  currentQuestionIndex := 0
  currentQuestion := "Q1"
  answer := "my answer"
  history := []
  interviewing := true
  totalScore := 0
  questions := ["Q1"]
  interviewCompleted := false
  resultAnalysis := none

/-- C9: a submission whose answer trims to the empty string leaves the
whole state unchanged, whatever the oracle would have replied. -/
theorem submit_blank_answer_noop (s : QuizState)
    (h : (trimChars s.answer.data).isEmpty = true) :
    ∀ feedbackContent analysisOutcome,
      handleAnswerSubmit s feedbackContent analysisOutcome = s := by
  intro fc ao
  simp [handleAnswerSubmit, h]

theorem submit_blank_answer_noop_witness :
    handleAnswerSubmit { sampleQuizState with answer := "   " }
        (some "Score: 9/10. Feedback: great.") none =
      { sampleQuizState with answer := "   " } :=
  submit_blank_answer_noop { sampleQuizState with answer := "   " } (by decide)
    (some "Score: 9/10. Feedback: great.") none

/-- C7: the question index never exceeds the question count (preserved both
by starting an interview and by submitting an answer), and for a live
submission the completion flag is set exactly when the index after increment
equals the question count, at which point the session leaves the
interviewing state with the result analysis installed; otherwise the index
advances by one and the flag stays clear. -/
theorem quiz_progress (s : QuizState) (fc : Option String)
    (ao : Option ParsedAnalysis) (qc : Option String)
    (hInv : s.currentQuestionIndex ≤ s.questions.length) :
    (startInterview s qc).currentQuestionIndex ≤ (startInterview s qc).questions.length ∧
    (handleAnswerSubmit s fc ao).currentQuestionIndex ≤
      (handleAnswerSubmit s fc ao).questions.length ∧
    (s.interviewCompleted = false → (trimChars s.answer.data).isEmpty = false →
      s.currentQuestionIndex < s.questions.length →
      (((handleAnswerSubmit s fc ao).interviewCompleted = true ↔
          s.currentQuestionIndex + 1 = s.questions.length) ∧
       (s.currentQuestionIndex + 1 = s.questions.length →
          (handleAnswerSubmit s fc ao).interviewing = false ∧
          (handleAnswerSubmit s fc ao).resultAnalysis = some (analyzeResults ao)) ∧
       (s.currentQuestionIndex + 1 < s.questions.length →
          (handleAnswerSubmit s fc ao).currentQuestionIndex = s.currentQuestionIndex + 1 ∧
          (handleAnswerSubmit s fc ao).interviewCompleted = false ∧
          (handleAnswerSubmit s fc ao).interviewing = s.interviewing))) := by
  refine ⟨?_, ?_, ?_⟩
  · by_cases hsk : s.skills.isEmpty
    · simpa [startInterview, hsk] using hInv
    · by_cases hlen : 0 < (generateQuestions qc).length
      · simp [startInterview, hsk, hlen]
      · simp [startInterview, hsk, hlen]
  · by_cases hb : (trimChars s.answer.data).isEmpty
    · simpa [handleAnswerSubmit, hb] using hInv
    · by_cases hlt : s.currentQuestionIndex + 1 < s.questions.length
      · simp [handleAnswerSubmit, hb, hlt]
        omega
      · simpa [handleAnswerSubmit, hb, hlt] using hInv
  · intro hcomp hb hidx
    by_cases hlt : s.currentQuestionIndex + 1 < s.questions.length
    · have hne : s.currentQuestionIndex + 1 ≠ s.questions.length := by omega
      simp [handleAnswerSubmit, hb, hlt, hcomp, hne]
    · have heq : s.currentQuestionIndex + 1 = s.questions.length := by omega
      simp [handleAnswerSubmit, hb, hlt, heq]

theorem quiz_progress_witness :
    (handleAnswerSubmit sampleQuizState (some "Score: 8/10. Feedback: ok.")
        (some { overallPerformance := PerfValue.str "good" })).interviewCompleted = true := by
  have h := quiz_progress sampleQuizState (some "Score: 8/10. Feedback: ok.")
    (some { overallPerformance := PerfValue.str "good" }) none (by decide)
  exact (h.2.2 (by decide) (by decide) (by decide)).1.mpr (by decide)

/-- C6, counterexample: the oracle reply "Score: 0/10. Feedback:
incorrect." appends a record with score 0, outside the interval [1,10] the
claim asserts for every appended record. -/
theorem score_range_cex :
    ((handleAnswerSubmit sampleQuizState (some "Score: 0/10. Feedback: incorrect.")
        none).history.map fun e => e.score) = [0] ∧
    ¬(∀ e ∈ (handleAnswerSubmit sampleQuizState
        (some "Score: 0/10. Feedback: incorrect.") none).history,
        1 ≤ e.score ∧ e.score ≤ 10) := by
  constructor
  · decide
  · decide

/-- C6, amended: every appended record carries exactly the integer captured
by the score pattern — unclamped, so 0 or values above 10 pass through —
with 5 substituted only when the pattern is absent; the running total grows
by the same amount. -/
theorem submit_score_parsed (s : QuizState) (fc : Option String)
    (ao : Option ParsedAnalysis)
    (hb : (trimChars s.answer.data).isEmpty = false) :
    (handleAnswerSubmit s fc ao).history =
      s.history ++ [{ question := s.currentQuestion, answer := s.answer,
                      feedback := parseFeedback (fc.getD "No feedback available."),
                      score := parseScore (fc.getD "No feedback available.") }] ∧
    (handleAnswerSubmit s fc ao).totalScore =
      s.totalScore + parseScore (fc.getD "No feedback available.") ∧
    (∀ n, scoreMatch (fc.getD "No feedback available.").data = some n →
        parseScore (fc.getD "No feedback available.") = n) ∧
    (scoreMatch (fc.getD "No feedback available.").data = none →
        parseScore (fc.getD "No feedback available.") = 5) := by
  refine ⟨?_, ?_, ?_, ?_⟩
  · by_cases hlt : s.currentQuestionIndex + 1 < s.questions.length <;>
      simp [handleAnswerSubmit, hb, hlt]
  · by_cases hlt : s.currentQuestionIndex + 1 < s.questions.length <;>
      simp [handleAnswerSubmit, hb, hlt]
  · intro n hn
    simp [parseScore, hn]
  · intro hn
    simp [parseScore, hn]

theorem submit_score_parsed_witness :
    (handleAnswerSubmit sampleQuizState (some "Score: 11/10. Feedback: wow.")
        none).totalScore = 11 := by
  have h := submit_score_parsed sampleQuizState (some "Score: 11/10. Feedback: wow.")
    none (by decide)
  rw [h.2.1]
  decide

/-- A test case in the challenge flow (`TestCase` interface,
CodeEditor variant, lines 354–359). -/
structure TestCase where
  input : String
  expectedOutput : String
  actualOutput : Option String := none
  passed : Option Bool := none
deriving DecidableEq

/-- Code-analysis result (`AnalysisResult` interface, CodeEditor,
lines 7–12). -/
structure AnalysisResult where
  timeComplexity : String
  spaceComplexity : String
  suggestion : Option String := none
  correctedCode : Option String := none
deriving DecidableEq

/-- The JSON object parsed from the question-generation reply in the
test-case-enabled CodeEditor variant, each expected field present or
absent. -/
structure QuestionReply where
  question : Option String := none
  testCases : Option (List TestCase) := none
deriving DecidableEq

/-- The JSON object parsed from the test-execution reply. -/
structure TestRunReply where
  testResults : Option (List TestCase) := none
deriving DecidableEq

/-- The challenge component's state (the `useState` hooks of the
test-case-enabled CodeEditor variant). -/
structure ChallengeState where
  code : String
  question : String
  analysis : AnalysisResult
  language : String
  difficulty : String
  topic : String
  testCases : List TestCase
  testResults : List TestCase
  time : Nat
  isRunning : Bool
deriving DecidableEq

/-- JavaScript `x || d` on an optional string: the empty string is falsy
and also falls back to the default. -/
def jsOrString (o : Option String) (d : String) : String :=
  match o with
  | some s => if s.isEmpty then d else s
  | none => d

/-- The reset analysis value (CodeEditor, question-generation success
branch). -/
def notAnalyzedYet : AnalysisResult where
  timeComplexity := "Not analyzed yet"
  spaceComplexity := "Not analyzed yet"

/-- Function `generateQuestion` of the test-case-enabled CodeEditor variant
(lines 482–533 of that file): the stopwatch is reset up front; a reply
whose JSON parses installs the question, whatever test-case list the reply
carries (empty when the field is absent), clears the previous test results,
code and analysis, and starts the stopwatch; a failed or unparseable reply
installs an error message and leaves the stopwatch stopped. -/
def generateQuestion (s : ChallengeState) (outcome : Option QuestionReply) :
    ChallengeState :=
  let s0 := { s with isRunning := false, time := 0 }
  match outcome with
  | none =>
    { s0 with
        question := "We couldn\x27t load a question. Please check your connection and try again.",
        isRunning := false }
  | some r =>
    { s0 with question := jsOrString r.question "Couldn\x27t generate question",
              testCases := r.testCases.getD [],
              testResults := [],
              code := "",
              analysis := notAnalyzedYet,
              isRunning := true }

/-- Function `runTestCases` (test-case-enabled CodeEditor variant, lines 579–633):
whitespace-only code aborts with no state change; otherwise the stored
test-result list is cleared and the stopwatch stopped before the call, and
only a reply that parses with a `testResults` field refills the list. -/
def runTestCases (s : ChallengeState) (outcome : Option TestRunReply) :
    ChallengeState :=
  if (trimChars s.code.data).isEmpty then s
  else
    let s0 := { s with testResults := [], isRunning := false }
    match outcome with
    | none => s0
    | some r => { s0 with testResults := r.testResults.getD [] }

/-- A concrete challenge state used by closed statements below. -/
def sampleChallengeState : ChallengeState where
  code := "int f() return 0;"
  question := "Loading question..."
  analysis := notAnalyzedYet
  language := "java"
  difficulty := "medium"
  topic := "array"
  testCases := []
  testResults := [{ input := "old", expectedOutput := "old", passed := some true }]
  time := 42
  isRunning := true

/-- C8, counterexample: a successful generation whose reply carries only
two test cases stores two, not the three the claim asserts for every
successful generation. -/
theorem generateQuestion_testCases_cex :
    ((generateQuestion sampleChallengeState
        (some { question := some "Q",
                testCases := some [{ input := "1", expectedOutput := "1" },
                                   { input := "2", expectedOutput := "2" }] })).testCases).length
      = 2 ∧
    ((generateQuestion sampleChallengeState
        (some { question := some "Q",
                testCases := some [{ input := "1", expectedOutput := "1" },
                                   { input := "2", expectedOutput := "2" }] })).testCases).length
      ≠ 3 := by
  constructor
  · decide
  · decide

/-- C8, amended: a successful question generation stores exactly the
test-case list carried by the reply (the empty list when the field is
absent) alongside the new question, clears the previous test results and
starts the stopwatch; exactly 3 test cases are stored precisely when the
reply carries 3. -/
theorem generateQuestion_testCases_stored (s : ChallengeState) (r : QuestionReply) :
    (∀ tcs, r.testCases = some tcs →
        (generateQuestion s (some r)).testCases = tcs ∧
        ((generateQuestion s (some r)).testCases.length = 3 ↔ tcs.length = 3)) ∧
    (r.testCases = none → (generateQuestion s (some r)).testCases = []) ∧
    (generateQuestion s (some r)).testResults = [] ∧
    (generateQuestion s (some r)).isRunning = true ∧
    (∀ q, r.question = some q → q.isEmpty = false →
        (generateQuestion s (some r)).question = q) := by
  refine ⟨?_, ?_, rfl, rfl, ?_⟩
  · intro tcs htcs
    simp [generateQuestion, htcs]
  · intro h
    simp [generateQuestion, h]
  · intro q hq hne
    simp [generateQuestion, jsOrString, hq, hne]

theorem generateQuestion_testCases_stored_witness :
    (generateQuestion sampleChallengeState
        (some { question := some "Q",
                testCases := some [{ input := "1", expectedOutput := "1" },
                                   { input := "2", expectedOutput := "2" },
                                   { input := "3", expectedOutput := "3" }] })).testCases.length
      = 3 := by
  have h := (generateQuestion_testCases_stored sampleChallengeState
    { question := some "Q",
      testCases := some [{ input := "1", expectedOutput := "1" },
                         { input := "2", expectedOutput := "2" },
                         { input := "3", expectedOutput := "3" }] }).1
    [{ input := "1", expectedOutput := "1" },
     { input := "2", expectedOutput := "2" },
     { input := "3", expectedOutput := "3" }] rfl
  exact h.2.mpr (by decide)

/-- C10: running the test cases with non-blank code first clears the stored
test-result list, so a failed or unparseable reply leaves it empty — the
previously displayed results are discarded, not preserved — while a parsed
reply installs exactly its `testResults` field (empty when absent). -/
theorem runTestCases_failure_clears (s : ChallengeState)
    (hcode : (trimChars s.code.data).isEmpty = false) :
    (runTestCases s none).testResults = [] ∧
    (s.testResults ≠ [] → (runTestCases s none).testResults ≠ s.testResults) ∧
    (∀ r, (runTestCases s (some r)).testResults = r.testResults.getD []) := by
  refine ⟨by simp [runTestCases, hcode], ?_, ?_⟩
  · intro h
    simp [runTestCases, hcode]
    exact fun hh => h hh
  · intro r
    simp [runTestCases, hcode]

theorem runTestCases_failure_clears_witness :
    (runTestCases sampleChallengeState none).testResults = [] ∧
    (runTestCases sampleChallengeState none).testResults ≠
      sampleChallengeState.testResults := by
  have h := runTestCases_failure_clears sampleChallengeState (by decide)
  exact ⟨h.1, h.2.1 (by decide)⟩
